import Mathlib

/-!
Verification development for a minimal static-site generator
(`script.py`): a Markdown-to-HTML renderer plus a build/clean pipeline.

The Python source is shallowly embedded below.  Documents are handled at
the granularity of `splitlines()` output, i.e. as `List (List Char)`:
on that domain `raw.rstrip("\x7bnothing\x7d")`-style cleanups such as
`line = raw.rstrip("\n")` are the identity (splitlines output never
contains a newline), which is noted where relevant.  Python `str` methods
(`split`, `strip`, `lstrip`, `startswith`, `splitlines`, `join`) are
embedded as executable Lean functions with the same semantics on the
inputs that occur (ASCII whitespace; `\n` line terminators).
-/

namespace Site

/-- Python `"\n".join(lines)` on character lists. -/
def joinNlCh : List (List Char) → List Char
  | [] => []
  | [l] => l
  | l :: ls => l ++ '\n' :: joinNlCh ls

/-- Python `"\n".join(lines)` on strings (used for the final HTML output). -/
def joinNl : List String → String
  | [] => ""
  | [s] => s
  | s :: ls => s ++ "\n" ++ joinNl ls

/-- Python `str.splitlines()` restricted to `\n` terminators: a trailing
terminator does not produce a final empty line. -/
def pyLines : List Char → List (List Char)
  | [] => []
  | c :: rest =>
    if c = '\n' then [] :: pyLines rest
    else
      match pyLines rest with
      | [] => [[c]]
      | h :: t => (c :: h) :: t

/-- `html.escape` (with `quote=True`) on one character: the sequential
`replace` calls of the CPython implementation are equivalent to this
character-wise map because no replacement string contains a later target. -/
def escCharCh (c : Char) : List Char :=
  if c = '&' then "&amp;".data
  else if c = '<' then "&lt;".data
  else if c = '>' then "&gt;".data
  else if c = '"' then "&quot;".data
  else if c = '\'' then "&#x27;".data
  else [c]

/-- `html.escape(s, quote=True)` on a character list. -/
def escapeCh : List Char → List Char
  | [] => []
  | c :: cs => escCharCh c ++ escapeCh cs

/-- `html.escape` on a `String` (as applied to titles in the template). -/
def escapeStr (s : String) : String :=
  String.mk (escapeCh s.data)

/-- Python `str.strip()` (ASCII whitespace model). -/
def pyStripCh (l : List Char) : List Char :=
  ((l.dropWhile (fun c => c.isWhitespace)).reverse.dropWhile
    (fun c => c.isWhitespace)).reverse

/-- Python `str.split(sep)` for a non-empty separator, fuelled by the
input length (every step consumes at least one character, so
`fuel = cs.length` always suffices; the fuel-0 fallback is unreachable
under that choice). -/
def splitSepGo (sep : List Char) : Nat → List Char → List (List Char)
  | _, [] => [[]]
  | 0, cs => [cs]
  | fuel + 1, c :: rest =>
    if sep ≠ [] ∧ sep.isPrefixOf (c :: rest) then
      [] :: splitSepGo sep fuel ((c :: rest).drop sep.length)
    else
      match splitSepGo sep fuel rest with
      | [] => [[c]]
      | h :: t => (c :: h) :: t

/-- Python `s.split(delim)` producing strings. -/
def pySplit (sep : List Char) (cs : List Char) : List (List Char) :=
  splitSepGo sep cs.length cs

/-- The alternation loop of `_replace_delimited`: even-indexed parts stay
plain, odd-indexed parts are wrapped in the tag pair (Python's `toggle`). -/
def wrapAlt (openTag closeTag : String) : List String → Bool → List String
  | [], _ => []
  | p :: ps, tog =>
    (if tog then openTag ++ p ++ closeTag else p) :: wrapAlt openTag closeTag ps (!tog)

/-- `_replace_delimited(s, delim, open_tag, close_tag)`.  Python builds the
alternating `out` list and then returns the original string when the final
`toggle` is `True`; that final toggle equals `parts.length % 2 == 1`, which
is the condition embedded here. -/
def replace_delimited (s delim openTag closeTag : String) : String :=
  let parts := (pySplit delim.data s.data).map String.mk
  if parts.length < 3 then s
  else if parts.length % 2 = 1 then s
  else String.join (wrapAlt openTag closeTag parts false)

/-- Split a character list at the first occurrence of `t`
(Python `s.find(t)` plus slicing): `some (before, after)` when found. -/
def splitAtChar (t : Char) : List Char → Option (List Char × List Char)
  | [] => none
  | c :: rest =>
    if c = t then some ([], rest)
    else (splitAtChar t rest).map (fun p => (c :: p.1, p.2))

/-- The scanning loop of `_replace_links`, fuelled by the input length
(each step consumes at least one character). -/
def linksGo : Nat → List Char → String
  | _, [] => ""
  | 0, cs => String.mk cs
  | fuel + 1, c :: rest =>
    if c = '[' then
      match splitAtChar ']' rest with
      | some (txt, after1) =>
        match after1 with
        | '(' :: rest2 =>
          match splitAtChar ')' rest2 with
          | some (url, after2) =>
            "<a href=\"" ++ String.mk url ++ "\">" ++ String.mk txt ++ "</a>"
              ++ linksGo fuel after2
          | none => "[" ++ linksGo fuel rest
        | _ => "[" ++ linksGo fuel rest
      | none => "[" ++ linksGo fuel rest
    else String.singleton c ++ linksGo fuel rest

/-- `_replace_links(s)`. -/
def replace_links (s : String) : String :=
  linksGo s.data.length s.data

/-- `_render_inline(text)`: escape first, then code span, strong, em, links. -/
def render_inline (text : List Char) : String :=
  let t0 := String.mk (escapeCh text)
  let t1 := replace_delimited t0 "`" "<code>" "</code>"
  let t2 := replace_delimited t1 "**" "<strong>" "</strong>"
  let t3 := replace_delimited t2 "*" "<em>" "</em>"
  replace_links t3

/-- `_is_fenced_start(line)`: `some lang` when the line starts with three
backticks (the inner `rstrip("\n")` is the identity on splitlines output;
`lang or ""` is the identity on the stripped remainder). -/
def is_fenced_start (line : List Char) : Option String :=
  if "```".data.isPrefixOf line then some (String.mk (pyStripCh (line.drop 3)))
  else none

/-- `_starts_with_numbered_item(line)`: after `lstrip()`, a non-empty run
of digits, a dot, a space; returns the stripped remainder.  The Python
`len(s) >= 3` pre-check is implied by the digit/dot/space pattern. -/
def starts_with_numbered_item (line : List Char) : Option (List Char) :=
  let s := line.dropWhile (fun c => c.isWhitespace)
  match s.takeWhile (fun c => c.isDigit), s.dropWhile (fun c => c.isDigit) with
  | [], _ => none
  | _ :: _, '.' :: ' ' :: rest => some (pyStripCh rest)
  | _, _ => none

/-- `line.startswith("    ") or line.startswith("\t")`. -/
def isIndented (line : List Char) : Bool :=
  "    ".data.isPrefixOf line || "\t".data.isPrefixOf line

/-- One iteration of `_collect_indented_code`'s body: `l[4:]` after four
spaces, else `l[1:]` after a tab. -/
def stripOneIndent (l : List Char) : List Char :=
  if "    ".data.isPrefixOf l then l.drop 4 else l.drop 1

/-- The mutable locals of `markdown_to_html`'s line loop. -/
structure MdState where
  htmlLines : List String
  in_code : Bool
  code_buf : List (List Char)
  list_open : Bool
  ol_open : Bool
deriving Repr, DecidableEq

/-- `close_lists()`: emit `</ul>` if an unordered list is open, then
`</ol>` if an ordered list is open, clearing both flags. -/
def closeLists (st : MdState) : MdState :=
  let st1 :=
    if st.list_open then
      { st with htmlLines := st.htmlLines ++ ["</ul>"], list_open := false }
    else st
  if st1.ol_open then
    { st1 with htmlLines := st1.htmlLines ++ ["</ol>"], ol_open := false }
  else st1

/-- The fence-closing flush: `<pre><code>`, then
`escape("\n".join(code_buf)).splitlines()`, then `</code></pre>`. -/
def fenceFlushLines (code_buf : List (List Char)) : List String :=
  ["<pre><code>"] ++ (pyLines (escapeCh (joinNlCh code_buf))).map String.mk
    ++ ["</code></pre>"]

/-- The `while i < len(lines)` loop of `markdown_to_html`, fuelled by the
number of remaining lines (every iteration consumes at least one line, so
`fuel = lines.length` suffices and the fuel-0 fallback is unreachable).
`line = raw.rstrip("\n")` is the identity on splitlines output, so `raw`
is used throughout.  The ordered-list branch guard reflects Python's
walrus-plus-truthiness: it is taken only when `_starts_with_numbered_item`
returns a *non-empty* string. -/
def mdGo : Nat → List (List Char) → MdState → MdState
  | _, [], st => st
  | 0, _ :: _, st => st
  | fuel + 1, raw :: rest, st =>
    match is_fenced_start raw with
    | some _ =>
      if st.in_code then
        mdGo fuel rest
          { st with htmlLines := st.htmlLines ++ fenceFlushLines st.code_buf,
                    code_buf := [], in_code := false }
      else
        mdGo fuel rest { st with in_code := true }
    | none =>
      if st.in_code then
        mdGo fuel rest { st with code_buf := st.code_buf ++ [raw] }
      else if "#".data.isPrefixOf raw then
        let st1 := closeLists st
        let level0 := raw.length - (raw.dropWhile (fun c => c = '#')).length
        let level := max 1 (min 6 level0)
        let text := pyStripCh (raw.drop level)
        mdGo fuel rest
          { st1 with htmlLines := st1.htmlLines ++
              ["<h" ++ toString level ++ ">" ++ render_inline text
                ++ "</h" ++ toString level ++ ">"] }
      else if (starts_with_numbered_item raw).getD [] ≠ [] then
        let t := (starts_with_numbered_item raw).getD []
        let st1 :=
          if st.ol_open then st
          else
            let s2 := closeLists st
            { s2 with htmlLines := s2.htmlLines ++ ["<ol>"], ol_open := true }
        mdGo fuel rest
          { st1 with htmlLines := st1.htmlLines ++
              ["<li>" ++ render_inline t ++ "</li>"] }
      else if "- ".data.isPrefixOf (pyStripCh raw) then
        let st1 :=
          if st.list_open then st
          else
            let s2 := closeLists st
            { s2 with htmlLines := s2.htmlLines ++ ["<ul>"], list_open := true }
        mdGo fuel rest
          { st1 with htmlLines := st1.htmlLines ++
              ["<li>" ++ render_inline (pyStripCh ((pyStripCh raw).drop 2))
                ++ "</li>"] }
      else if pyStripCh raw = [] then
        let st1 := closeLists st
        mdGo fuel rest { st1 with htmlLines := st1.htmlLines ++ [""] }
      else if isIndented raw then
        let st1 := closeLists st
        let blockLines := (raw :: rest.takeWhile isIndented).map stripOneIndent
        mdGo fuel (rest.dropWhile isIndented)
          { st1 with htmlLines := st1.htmlLines ++
              ["<pre><code>", String.mk (escapeCh (joinNlCh blockLines)),
               "</code></pre>"] }
      else
        let st1 := closeLists st
        mdGo fuel rest
          { st1 with htmlLines := st1.htmlLines ++
              ["<p>" ++ render_inline (pyStripCh raw) ++ "</p>"] }

/-- Fresh loop state at the top of `markdown_to_html`. -/
def initSt : MdState := ⟨[], false, [], false, false⟩

/-- The emitted HTML lines of `markdown_to_html`, including the final
still-open-list closes (`</ul>` then `</ol>`). -/
def htmlListOf (lines : List (List Char)) : List String :=
  let st := mdGo lines.length lines initSt
  st.htmlLines ++ (if st.list_open then ["</ul>"] else [])
    ++ (if st.ol_open then ["</ol>"] else [])

/-- `markdown_to_html` on a document already split into lines. -/
def markdown_to_html_lines (lines : List (List Char)) : String :=
  joinNl (htmlListOf lines)

/-- `markdown_to_html(md)`. -/
def markdown_to_html (md : String) : String :=
  markdown_to_html_lines (pyLines md.data)

/-- Drop a single trailing empty line, the effect of the
`"\n".join` / `splitlines()` round trip on the fence buffer. -/
def dropTrailingEmptyLine (ls : List String) : List String :=
  if ls.getLast? = some "" then ls.dropLast else ls

/-- The list-tracking invariant of the line loop: each open-list flag is
owed exactly one close tag in the emitted lines, and at most one of the
two list kinds is open at a time. -/
def listInv (st : MdState) : Prop :=
  st.htmlLines.count "<ol>"
      = st.htmlLines.count "</ol>" + (if st.ol_open then 1 else 0)
  ∧ st.htmlLines.count "<ul>"
      = st.htmlLines.count "</ul>" + (if st.list_open then 1 else 0)
  ∧ ¬(st.list_open = true ∧ st.ol_open = true)

/-! ### Site building

The filesystem-facing layer is embedded with its effects made explicit: a
discovered Markdown file is a record of its (forward-slash) relative path
and its text split into lines, the wall clock of `datetime.utcnow()` is a
`built` parameter, and every mutation (`mkdir`, `write_text`, `unlink`)
becomes an `Action` value instead of an I/O call. -/

/-- The subset of `Config` the core consumes. -/
structure Config where
  site_title : String
  base_url : String
  css_href : String
  date_format : String
deriving Repr, DecidableEq

/-- A discovered Markdown file: `relStem` is the `/`-normalized path
relative to the domain source root without its `.md` suffix (so the
destination relative path `str(rel_html).replace("\\", "/")` is
`relStem ++ ".html"`), `name` is the final path component (ending in
`.md`, as guaranteed by `rglob("*.md")`), and `lines` is
`read_text().splitlines()`. -/
structure MdFile where
  relStem : String
  name : String
  lines : List (List Char)
deriving Repr, DecidableEq

/-- A filesystem mutation performed by the builder or cleaner. -/
inductive Action where
  | mkdirParents (path : String)
  | write (path : String) (text : String)
  | unlink (path : String)
deriving Repr, DecidableEq

/-- A Python exception (the cleaner catches only `FileNotFoundError`). -/
inductive PyExc where
  | fileNotFoundError
  | other (msg : String)
deriving Repr, DecidableEq

/-- A file found under the destination root when `clean_domain`
enumerates, with a flag telling whether it still exists when `unlink`
runs (modelling the tolerated deletion race). -/
structure FsFile where
  path : String
  presentAtUnlink : Bool
deriving Repr, DecidableEq

/-- `config.base_url.rstrip("/")`. -/
def rstripSlashes (s : String) : String :=
  String.mk (s.data.reverse.dropWhile (fun c => c = '/')).reverse

/-- `canonical_path.lstrip("/")`. -/
def lstripSlashes (s : String) : String :=
  String.mk (s.data.dropWhile (fun c => c = '/'))

/-- `path.parent` of a `/`-separated path (used only as an opaque value). -/
def parentOf (p : String) : String :=
  String.mk ((p.data.reverse.dropWhile (fun c => c ≠ '/')).drop 1).reverse

/-- `render_page(config, title, content_html, canonical_path)` with the
`utcnow()` timestamp passed in as `built`; `HTML_TEMPLATE.format(...)`
spelled out as concatenation. -/
def render_page (cfg : Config) (title content_html canonical_path built : String) :
    String :=
  let canonical := rstripSlashes cfg.base_url ++ "/" ++ lstripSlashes canonical_path
  "<!DOCTYPE html>\n<html lang=\"en\">\n<head>\n<meta charset=\"utf-8\">\n"
    ++ "<meta name=\"viewport\" content=\"width=device-width, initial-scale=1\">\n"
    ++ "<title>" ++ escapeStr title ++ "</title>\n"
    ++ "<link rel=\"canonical\" href=\"" ++ canonical ++ "\">\n"
    ++ "<link rel=\"stylesheet\" href=\"" ++ cfg.css_href ++ "\">\n"
    ++ "</head>\n<body>\n<header>\n  <h1><a href=\"" ++ rstripSlashes cfg.base_url
    ++ "\">" ++ escapeStr cfg.site_title ++ "</a></h1>\n</header>\n<main>\n"
    ++ content_html ++ "\n</main>\n<footer>\n  <p>Built " ++ built
    ++ " UTC</p>\n</footer>\n</body>\n</html>\n"

/-- `write_text(path, text, dry_run)`: the decision log on the left, the
performed mutations on the right (none under dry run). -/
def write_text (path text : String) (dry : Bool) : List String × List Action :=
  (["write " ++ path],
   if dry then [] else [Action.mkdirParents (parentOf path), Action.write path text])

/-- `md_title(md_path)`: first line starting with `#`, with the `#` run
and surrounding whitespace stripped. -/
def md_title : List (List Char) → Option String
  | [] => none
  | l :: ls =>
    if "#".data.isPrefixOf l then
      some (String.mk (pyStripCh (l.dropWhile (fun c => c = '#'))))
    else md_title ls

/-- `p.stem` for a name ending in `.md`. -/
def stemOf (name : String) : String :=
  String.mk (name.data.take (name.data.length - 3))

/-- `stem.replace("-", " ")`. -/
def hyphenToSpace (s : String) : String :=
  String.mk (s.data.map (fun c => if c = '-' then ' ' else c))

/-- The title rule shared by `md_to_html_file` and `build_index`:
`md_title(p) or p.stem.replace("-", " ")`.  Python's `or` falls back on
any falsy value, so a heading whose text strips to the empty string (a
bare `#` line) also selects the stem fallback, not just a missing
heading. -/
def titleOf (f : MdFile) : String :=
  match md_title f.lines with
  | some t => if t = "" then hyphenToSpace (stemOf f.name) else t
  | none => hyphenToSpace (stemOf f.name)

/-- `md_to_html_file(md_path, rel_root, out_root, cfg, dry_run)`: returns
the destination (`None` for reserved `__`-prefixed names) together with
the decision log and mutations. -/
def md_to_html_file (f : MdFile) (outRoot : String) (cfg : Config) (dry : Bool)
    (built : String) : Option String × (List String × List Action) :=
  if "__".data.isPrefixOf f.name.data ∧ ".md".data.isSuffixOf f.name.data then
    (none, ([], []))
  else
    let rel := f.relStem ++ ".html"
    let dst := outRoot ++ "/" ++ rel
    let page := render_page cfg (titleOf f) (markdown_to_html_lines f.lines) rel built
    let w := write_text dst page dry
    (some dst, (("convert -> " ++ dst) :: w.1, w.2))

/-- The `(str(rel_html).replace("\\", "/"), title)` pair `build_index`
collects for one non-reserved file. -/
def entryOf (f : MdFile) : String × String :=
  (f.relStem ++ ".html", titleOf f)

/-- The unsorted index entries: every discovered file whose name does not
start with `__`, in enumeration order. -/
def rawEntries (files : List MdFile) : List (String × String) :=
  (files.filter (fun f => !("__".data.isPrefixOf f.name.data))).map entryOf

/-- Python's tuple comparison on `(href, title)` pairs, the order used by
`entries.sort()`. -/
def entryLe (a b : String × String) : Prop :=
  a.1 < b.1 ∨ (a.1 = b.1 ∧ a.2 ≤ b.2)

instance : DecidableRel entryLe := fun a b => by
  unfold entryLe; exact inferInstance

instance : IsTotal (String × String) entryLe := by
  constructor
  intro a b
  rcases lt_trichotomy a.1 b.1 with h | h | h
  · exact Or.inl (Or.inl h)
  · rcases le_total a.2 b.2 with h2 | h2
    · exact Or.inl (Or.inr ⟨h, h2⟩)
    · exact Or.inr (Or.inr ⟨h.symm, h2⟩)
  · exact Or.inr (Or.inl h)

instance : IsTrans (String × String) entryLe := by
  constructor
  intro a b c hab hbc
  rcases hab with h1 | ⟨e1, l1⟩ <;> rcases hbc with h2 | ⟨e2, l2⟩
  · exact Or.inl (h1.trans h2)
  · exact Or.inl (e2 ▸ h1)
  · exact Or.inl (e1 ▸ h2)
  · exact Or.inr ⟨e1.trans e2, l1.trans l2⟩

instance : IsAntisymm (String × String) entryLe := by
  constructor
  intro a b hab hba
  rcases hab with h1 | ⟨e1, l1⟩
  · rcases hba with h2 | ⟨e2, l2⟩
    · exact absurd h2 (lt_asymm h1)
    · exact absurd h1 (e2 ▸ lt_irrefl _)
  · rcases hba with h2 | ⟨e2, l2⟩
    · exact absurd h2 (e1 ▸ lt_irrefl _)
    · exact Prod.ext e1 (le_antisymm l1 l2)

/-- `entries.sort()`. -/
def sortEntries (l : List (String × String)) : List (String × String) :=
  List.insertionSort entryLe l

/-- `f'<li><a href="{href}">{escape(title)}</a></li>'`. -/
def lineOfEntry (e : String × String) : String :=
  "<li><a href=\"" ++ e.1 ++ "\">" ++ escapeStr e.2 ++ "</a></li>"

/-- The generated listing block of `build_index`. -/
def indexListing (files : List MdFile) : List String :=
  "<h2>Posts</h2>" :: "<ul>" :: (sortEntries (rawEntries files)).map lineOfEntry
    ++ ["</ul>"]

/-- `build_index(domain_src_root, domain_dst_root, cfg, dry_run)`:
`indexSrc` is the text of `__index__.md` when that file exists at the
domain source root. -/
def build_index (files : List MdFile) (indexSrc : Option (List (List Char)))
    (cfg : Config) (built : String) (dry : Bool) (dstRoot : String) :
    List String × List Action :=
  let body := match indexSrc with
    | some ls => markdown_to_html_lines ls
    | none => "<h2>Index</h2>"
  let content := body ++ "\n" ++ joinNl (indexListing files)
  let page := render_page cfg (cfg.site_title ++ " â€” Index") content
    "index.html" built
  write_text (dstRoot ++ "/index.html") page dry

/-- `p.unlink()` on an enumerated file: raises `FileNotFoundError` when
the file vanished between enumeration and deletion. -/
def unlinkRaw (f : FsFile) : Except PyExc Unit :=
  if f.presentAtUnlink then Except.ok () else Except.error PyExc.fileNotFoundError

/-- Does the path match the `rglob("*.html")` pattern? -/
def isHtmlFile (f : FsFile) : Bool :=
  ".html".data.isSuffixOf f.path.data

/-- The deletion loop of `clean_domain`: log each removal, skip `unlink`
under dry run, and catch exactly `FileNotFoundError`. -/
def cleanLoop (dry : Bool) : List FsFile → Except PyExc (List String × List Action)
  | [] => Except.ok ([], [])
  | f :: rest =>
    let step : Except PyExc (List Action) :=
      if dry then Except.ok []
      else
        match unlinkRaw f with
        | Except.ok _ => Except.ok [Action.unlink f.path]
        | Except.error PyExc.fileNotFoundError => Except.ok []
        | Except.error e => Except.error e
    match step with
    | Except.error e => Except.error e
    | Except.ok acts =>
      match cleanLoop dry rest with
      | Except.error e => Except.error e
      | Except.ok (logs, as2) => Except.ok (("remove " ++ f.path) :: logs, acts ++ as2)

/-- `clean_domain(dst_domain_root, dry_run)`: no-op on a missing root,
otherwise enumerate `rglob("*.html")` and delete each. -/
def clean_domain (rootExists : Bool) (filesUnderRoot : List FsFile) (dry : Bool) :
    Except PyExc (List String × List Action) :=
  if rootExists then cleanLoop dry (filesUnderRoot.filter isHtmlFile)
  else Except.ok (["nothing to clean"], [])

/-- Concatenate per-file logs or actions. -/
def flatCat : List (List α) → List α
  | [] => []
  | l :: ls => l ++ flatCat ls

/-- The body of `run_build` after configuration resolution and the
domain-source existence check: optional clean, per-file conversion, index
build; decisions on the left, mutations on the right. -/
def build_domain (files : List MdFile) (dstExists : Bool) (dstFiles : List FsFile)
    (indexSrc : Option (List (List Char))) (cfg : Config) (built : String)
    (cleanFirst dry : Bool) (dstRoot : String) :
    Except PyExc (List String × List Action) :=
  match (if cleanFirst then clean_domain dstExists dstFiles dry
         else Except.ok ([], [])) with
  | Except.error e => Except.error e
  | Except.ok (cl, ca) =>
    let conv := files.map (fun f => (md_to_html_file f dstRoot cfg dry built).2)
    let idx := build_index files indexSrc cfg built dry dstRoot
    Except.ok
      (cl ++ ["found " ++ toString files.length ++ " markdown files"]
        ++ flatCat (conv.map Prod.fst) ++ idx.1 ++ ["build complete"],
       ca ++ flatCat (conv.map Prod.snd) ++ idx.2)

/-! ### Small-step characterisation of the line loop -/

theorem mdGo_nil (fuel : Nat) (st : MdState) : mdGo fuel [] st = st := by
  cases fuel <;> rfl

theorem mdGo_fence_open (fuel : Nat) (raw : List Char) (rest : List (List Char))
    (st : MdState) (lang : String) (h : is_fenced_start raw = some lang)
    (hc : st.in_code = false) :
    mdGo (fuel + 1) (raw :: rest) st = mdGo fuel rest { st with in_code := true } := by
  simp only [mdGo, h, hc]
  rfl

theorem mdGo_fence_close (fuel : Nat) (raw : List Char) (rest : List (List Char))
    (st : MdState) (lang : String) (h : is_fenced_start raw = some lang)
    (hc : st.in_code = true) :
    mdGo (fuel + 1) (raw :: rest) st
      = mdGo fuel rest
          { st with htmlLines := st.htmlLines ++ fenceFlushLines st.code_buf,
                    code_buf := [], in_code := false } := by
  simp only [mdGo, h, hc]
  rfl

theorem mdGo_code (fuel : Nat) (raw : List Char) (rest : List (List Char))
    (st : MdState) (h : is_fenced_start raw = none) (hc : st.in_code = true) :
    mdGo (fuel + 1) (raw :: rest) st
      = mdGo fuel rest { st with code_buf := st.code_buf ++ [raw] } := by
  simp only [mdGo, h, hc]
  rfl

theorem mdGo_heading (fuel : Nat) (raw : List Char) (rest : List (List Char))
    (st : MdState) (h : is_fenced_start raw = none) (hc : st.in_code = false)
    (hh : "#".data.isPrefixOf raw = true) :
    mdGo (fuel + 1) (raw :: rest) st
      = mdGo fuel rest
          { closeLists st with htmlLines := (closeLists st).htmlLines ++
              ["<h" ++ toString (max 1 (min 6 (raw.length - (raw.dropWhile (fun c => c = '#')).length))) ++ ">"
                ++ render_inline (pyStripCh (raw.drop (max 1 (min 6 (raw.length - (raw.dropWhile (fun c => c = '#')).length)))))
                ++ "</h" ++ toString (max 1 (min 6 (raw.length - (raw.dropWhile (fun c => c = '#')).length))) ++ ">"] } := by
  simp only [mdGo, h, hc, hh]
  rfl

theorem mdGo_numbered (fuel : Nat) (raw : List Char) (rest : List (List Char))
    (st : MdState) (h : is_fenced_start raw = none) (hc : st.in_code = false)
    (hh : "#".data.isPrefixOf raw = false)
    (hn : (starts_with_numbered_item raw).getD [] ≠ []) :
    mdGo (fuel + 1) (raw :: rest) st
      = mdGo fuel rest
          (let st1 :=
            if st.ol_open then st
            else
              let s2 := closeLists st
              { s2 with htmlLines := s2.htmlLines ++ ["<ol>"], ol_open := true }
           { st1 with htmlLines := st1.htmlLines ++
              ["<li>" ++ render_inline ((starts_with_numbered_item raw).getD []) ++ "</li>"] }) := by
  simp only [mdGo, h, hc, hh, Bool.false_eq_true, if_false, if_pos hn]

theorem mdGo_ul (fuel : Nat) (raw : List Char) (rest : List (List Char))
    (st : MdState) (h : is_fenced_start raw = none) (hc : st.in_code = false)
    (hh : "#".data.isPrefixOf raw = false)
    (hn : (starts_with_numbered_item raw).getD [] = [])
    (hu : "- ".data.isPrefixOf (pyStripCh raw) = true) :
    mdGo (fuel + 1) (raw :: rest) st
      = mdGo fuel rest
          (let st1 :=
            if st.list_open then st
            else
              let s2 := closeLists st
              { s2 with htmlLines := s2.htmlLines ++ ["<ul>"], list_open := true }
           { st1 with htmlLines := st1.htmlLines ++
              ["<li>" ++ render_inline (pyStripCh ((pyStripCh raw).drop 2)) ++ "</li>"] }) := by
  simp only [mdGo, h, hc, hh, Bool.false_eq_true, if_false, hn, ne_eq,
    not_true_eq_false, hu, if_true]

theorem mdGo_blank (fuel : Nat) (raw : List Char) (rest : List (List Char))
    (st : MdState) (h : is_fenced_start raw = none) (hc : st.in_code = false)
    (hh : "#".data.isPrefixOf raw = false)
    (hn : (starts_with_numbered_item raw).getD [] = [])
    (hb : pyStripCh raw = []) :
    mdGo (fuel + 1) (raw :: rest) st
      = mdGo fuel rest
          { closeLists st with htmlLines := (closeLists st).htmlLines ++ [""] } := by
  simp only [mdGo, h, hc, hh, Bool.false_eq_true, if_false, hn, ne_eq,
    not_true_eq_false, hb, if_true, List.isPrefixOf]

theorem mdGo_indent (fuel : Nat) (raw : List Char) (rest : List (List Char))
    (st : MdState) (h : is_fenced_start raw = none) (hc : st.in_code = false)
    (hh : "#".data.isPrefixOf raw = false)
    (hn : (starts_with_numbered_item raw).getD [] = [])
    (hu : "- ".data.isPrefixOf (pyStripCh raw) = false)
    (hb : pyStripCh raw ≠ [])
    (hi : isIndented raw = true) :
    mdGo (fuel + 1) (raw :: rest) st
      = mdGo fuel (rest.dropWhile isIndented)
          { closeLists st with htmlLines := (closeLists st).htmlLines ++
              ["<pre><code>",
               String.mk (escapeCh (joinNlCh ((raw :: rest.takeWhile isIndented).map stripOneIndent))),
               "</code></pre>"] } := by
  simp only [mdGo, h, hc, hh, Bool.false_eq_true, if_false, hn, ne_eq,
    not_true_eq_false, hu, if_neg hb, hi, if_true]

theorem mdGo_para (fuel : Nat) (raw : List Char) (rest : List (List Char))
    (st : MdState) (h : is_fenced_start raw = none) (hc : st.in_code = false)
    (hh : "#".data.isPrefixOf raw = false)
    (hn : (starts_with_numbered_item raw).getD [] = [])
    (hu : "- ".data.isPrefixOf (pyStripCh raw) = false)
    (hb : pyStripCh raw ≠ [])
    (hi : isIndented raw = false) :
    mdGo (fuel + 1) (raw :: rest) st
      = mdGo fuel rest
          { closeLists st with htmlLines := (closeLists st).htmlLines ++
              ["<p>" ++ render_inline (pyStripCh raw) ++ "</p>"] } := by
  simp only [mdGo, h, hc, hh, Bool.false_eq_true, if_false, hn, ne_eq,
    not_true_eq_false, hu, if_neg hb, hi, if_true]

theorem fence_not_hash (l : List Char) : is_fenced_start ('#' :: l) = none := by
  simp [is_fenced_start, List.isPrefixOf]

theorem hash_isPrefix (l : List Char) : "#".data.isPrefixOf ('#' :: l) = true := by
  simp [List.isPrefixOf]

/-- While inside a fence, every non-fence line is only buffered: the loop
run over `body` appends `body` to `code_buf` and changes nothing else. -/
theorem mdGo_buffer (body tail : List (List Char)) (fuel : Nat) (st : MdState)
    (hc : st.in_code = true) (hf : ∀ l ∈ body, is_fenced_start l = none) :
    mdGo (fuel + body.length) (body ++ tail) st
      = mdGo fuel tail { st with code_buf := st.code_buf ++ body } := by
  induction body generalizing st with
  | nil => simp
  | cons r rs ih =>
    have h1 : is_fenced_start r = none := hf r (List.mem_cons_self r rs)
    simp only [List.length_cons, List.cons_append]
    rw [show fuel + (rs.length + 1) = (fuel + rs.length) + 1 from rfl,
      mdGo_code (fuel + rs.length) r (rs ++ tail) st h1 hc,
      ih { st with code_buf := st.code_buf ++ [r] } hc
        (fun l hl => hf l (List.mem_cons_of_mem _ hl)) ]
    simp [List.append_assoc]

theorem escapeCh_append (a b : List Char) :
    escapeCh (a ++ b) = escapeCh a ++ escapeCh b := by
  induction a with
  | nil => rfl
  | cons c cs ih => simp [escapeCh, ih]

theorem escCharCh_no_nl (c : Char) (h : c ≠ '\n') : '\n' ∉ escCharCh c := by
  unfold escCharCh
  split
  · decide
  split
  · decide
  split
  · decide
  split
  · decide
  split
  · decide
  · intro hm
    rcases List.mem_singleton.mp hm with rfl
    exact h rfl

theorem escapeCh_no_nl (l : List Char) (h : '\n' ∉ l) : '\n' ∉ escapeCh l := by
  induction l with
  | nil => simp [escapeCh]
  | cons c cs ih =>
    simp only [escapeCh, List.mem_append]
    rintro (hm | hm)
    · exact escCharCh_no_nl c (fun e => h (e ▸ List.mem_cons_self c cs)) hm
    · exact ih (fun m => h (List.mem_cons_of_mem _ m)) hm

theorem escapeCh_joinNlCh (ls : List (List Char)) :
    escapeCh (joinNlCh ls) = joinNlCh (ls.map escapeCh) := by
  match ls with
  | [] => rfl
  | [l] => rfl
  | l :: l' :: ls' =>
    show escapeCh (l ++ '\n' :: joinNlCh (l' :: ls')) = _
    rw [escapeCh_append]
    show escapeCh l ++ (escCharCh '\n' ++ escapeCh (joinNlCh (l' :: ls'))) = _
    rw [escapeCh_joinNlCh (l' :: ls')]
    rfl

theorem pyLines_append_nl (l rest : List Char) (h : '\n' ∉ l) :
    pyLines (l ++ '\n' :: rest) = l :: pyLines rest := by
  induction l with
  | nil => simp [pyLines]
  | cons c cs ih =>
    have hc : c ≠ '\n' := fun e => h (e ▸ List.mem_cons_self c cs)
    have ihr := ih (fun m => h (List.mem_cons_of_mem _ m))
    simp [pyLines, hc, ihr]

theorem pyLines_no_nl (l : List Char) (h : '\n' ∉ l) :
    pyLines l = if l = [] then [] else [l] := by
  induction l with
  | nil => rfl
  | cons c cs ih =>
    have hc : c ≠ '\n' := fun e => h (e ▸ List.mem_cons_self c cs)
    have ihr := ih (fun m => h (List.mem_cons_of_mem _ m))
    simp only [pyLines, hc, if_false, ihr]
    by_cases hcs : cs = [] <;> simp [hcs]

theorem pyLines_joinNlCh (ls : List (List Char)) (h : ∀ l ∈ ls, '\n' ∉ l) :
    pyLines (joinNlCh ls)
      = if ls.getLast? = some [] then ls.dropLast else ls := by
  match ls with
  | [] => rfl
  | [l] =>
    show pyLines l = _
    rw [pyLines_no_nl l (h l (List.mem_cons_self l []))]
    by_cases hl : l = []
    · subst hl; rfl
    · simp [hl]
  | l :: l' :: ls' =>
    show pyLines (l ++ '\n' :: joinNlCh (l' :: ls')) = _
    rw [pyLines_append_nl l _ (h l (List.mem_cons_self _ _)),
      pyLines_joinNlCh (l' :: ls') (fun x hx => h x (List.mem_cons_of_mem _ hx))]
    rw [show ((l :: l' :: ls').getLast? = (l' :: ls').getLast?) from rfl,
      show ((l :: l' :: ls').dropLast = l :: (l' :: ls').dropLast) from rfl]
    by_cases hg : (l' :: ls').getLast? = some ([] : List Char) <;> simp [hg]

theorem getLast?_map (f : α → β) : ∀ l : List α,
    (l.map f).getLast? = (l.getLast?).map f
  | [] => rfl
  | [a] => rfl
  | a :: b :: l => by
    rw [show ((a :: b :: l).map f = f a :: (b :: l).map f) from rfl,
      show ((f a :: (b :: l).map f).getLast? = ((b :: l).map f).getLast?) from
        (by cases l <;> rfl),
      show ((a :: b :: l).getLast? = (b :: l).getLast?) from rfl]
    exact getLast?_map f (b :: l)

theorem dropLast_map (f : α → β) : ∀ l : List α,
    (l.map f).dropLast = (l.dropLast).map f
  | [] => rfl
  | [a] => rfl
  | a :: b :: l => by
    rw [show ((a :: b :: l).map f = f a :: (b :: l).map f) from rfl,
      show ((f a :: (b :: l).map f).dropLast = f a :: ((b :: l).map f).dropLast)
        from (by cases l <;> rfl),
      show ((a :: b :: l).dropLast = a :: (b :: l).dropLast) from rfl]
    rw [dropLast_map f (b :: l)]
    rfl

/-- Mapping `String.mk` over the char-level trailing-empty drop is the
string-level `dropTrailingEmptyLine`. -/
theorem map_mk_dropTrailing (CL : List (List Char)) :
    (if CL.getLast? = some [] then CL.dropLast else CL).map String.mk
      = dropTrailingEmptyLine (CL.map String.mk) := by
  unfold dropTrailingEmptyLine
  rw [getLast?_map String.mk CL]
  by_cases hg : CL.getLast? = some ([] : List Char)
  · rw [hg, if_pos rfl, if_pos (by decide), dropLast_map]
  · rw [if_neg hg, if_neg]
    intro hc
    cases hcl : CL.getLast? with
    | none => rw [hcl] at hc; exact Option.noConfusion hc
    | some a =>
      rw [hcl] at hc
      have : String.mk a = "" := Option.some.injEq _ _ ▸ hc ▸ rfl
      have ha : a = [] := by
        have := congrArg String.data this
        simpa using this
      exact hg (hcl.trans (by rw [ha]))

/-! ### Claims about the inline renderer (C1, C2) -/

/-- C1: the claim says that for an even, positive count of a delimiter the
inline renderer wraps the alternating enclosed segments in the tag pair.
Evaluating the code at `"a `b` c"` (backtick count 2, even and positive,
unaffected by HTML escaping) shows `_render_inline` via
`_replace_delimited` returns the line unchanged instead of
`a <code>b</code> c`: the final `if toggle` guard fires exactly when the
split has an odd number of parts, i.e. when the delimiter count is even. -/
theorem C1_even_count_left_unwrapped :
    render_inline ("a `b` c".data) = "a `b` c"
    ∧ replace_delimited "a `b` c" "`" "<code>" "</code>" = "a `b` c"
    ∧ "a `b` c" ≠ "a <code>b</code> c" :=
  ⟨by decide, by decide, by decide⟩

/-- C2: the claim says an odd delimiter count leaves the line completely
unsubstituted for that delimiter.  Evaluating the code at `` "`a`b`" ``
(backtick count 3, odd) shows `_render_inline` via `_replace_delimited`
does substitute, wrapping the trailing segment in an empty code span:
with an even number of split parts the final `if toggle` guard does not
fire, so the alternation (including the unterminated tail) is kept. -/
theorem C2_odd_count_substituted :
    render_inline ("`a`b`".data) = "<code>a</code>b<code></code>"
    ∧ replace_delimited "`a`b`" "`" "<code>" "</code>"
        = "<code>a</code>b<code></code>"
    ∧ "<code>a</code>b<code></code>" ≠ "`a`b`" :=
  ⟨by decide, by decide, by decide⟩

/-! ### Claim about headings (C3) -/

/-- C3 counterexample: for a line with seven leading `#` the rendered
`<h6>` text retains a residual `#` marker (`level` is clamped to 6 before
the `line[level:]` slice), contradicting the claim that the text contains
no residual `#`. -/
theorem C3_residual_hash_counterexample :
    markdown_to_html_lines ["####### Deep".data] = "<h6># Deep</h6>"
    ∧ markdown_to_html_lines ["####### Deep".data] ≠ "<h6>Deep</h6>" :=
  ⟨by decide, by decide⟩

/-- C3 (amended): a heading line `#…` emits `<hN>…</hN>` with `N` the
count of leading `#` clamped to `[1,6]`, but only the first `N` (clamped)
marker characters are stripped before the whitespace strip, so a line with
more than six leading `#` keeps the surplus `#` characters in its rendered
text; `render("# Title") = "<h1>Title</h1>"` and
`render("###### Deep") = "<h6>Deep</h6>"` hold as claimed. -/
theorem C3_heading_clamped_strip :
    (∀ l : List Char,
      markdown_to_html_lines [('#' :: l)] =
        "<h" ++ toString (max 1 (min 6 (('#' :: l).length - (('#' :: l).dropWhile (fun c => c = '#')).length))) ++ ">"
          ++ render_inline (pyStripCh (('#' :: l).drop (max 1 (min 6 (('#' :: l).length - (('#' :: l).dropWhile (fun c => c = '#')).length)))))
          ++ "</h" ++ toString (max 1 (min 6 (('#' :: l).length - (('#' :: l).dropWhile (fun c => c = '#')).length))) ++ ">")
    ∧ markdown_to_html_lines ["# Title".data] = "<h1>Title</h1>"
    ∧ markdown_to_html_lines ["###### Deep".data] = "<h6>Deep</h6>" := by
  refine ⟨?_, by decide, by decide⟩
  intro l
  unfold markdown_to_html_lines htmlListOf
  simp only [List.length_cons, List.length_nil]
  simp only [mdGo_heading 0 ('#' :: l) [] initSt (fence_not_hash l) rfl
    (hash_isPrefix l), mdGo_nil]
  rfl

/-! ### Claims about fenced code blocks (C4, C10) -/

/-- C4 counterexample: the claim says the `<pre><code>` content is the
interior lines HTML-escaped and otherwise verbatim, but a trailing empty
interior line is dropped by the `"\n".join` / `splitlines()` round trip:
for interior lines `x` and `""` the emitted block contains only `x`. -/
theorem C4_trailing_blank_dropped :
    markdown_to_html_lines ["```".data, "x".data, "".data, "```".data]
      = "<pre><code>\nx\n</code></pre>"
    ∧ markdown_to_html_lines ["```".data, "x".data, "".data, "```".data]
      ≠ "<pre><code>\nx\n\n</code></pre>" :=
  ⟨by decide, by decide⟩

/-- C4 (amended): a fenced code block emits exactly one
`<pre><code>…</code></pre>` element whose content is the interior lines
HTML-escaped and otherwise verbatim except that a single trailing empty
interior line is dropped (the `join`/`splitlines` round trip); no Markdown
processing is applied to interior lines (any non-fence interior line is
only buffered) and the language annotation after the opening fence is not
emitted. -/
theorem C4_fenced_block_escaped :
    ∀ (fo : List Char) (body : List (List Char)) (lang : String),
      is_fenced_start fo = some lang →
      (∀ l ∈ body, is_fenced_start l = none) →
      (∀ l ∈ body, '\n' ∉ l) →
      markdown_to_html_lines (fo :: body ++ ["```".data]) =
        joinNl ("<pre><code>" ::
          dropTrailingEmptyLine (body.map (fun l => String.mk (escapeCh l)))
          ++ ["</code></pre>"]) := by
  intro fo body lang hf hb hn
  have h1 : mdGo ((body.length + 1) + 1) (fo :: (body ++ ["```".data])) initSt
      = mdGo (body.length + 1) (body ++ ["```".data])
          (⟨[], true, [], false, false⟩ : MdState) :=
    mdGo_fence_open _ fo _ initSt lang hf rfl
  have h2 : mdGo (body.length + 1) (body ++ ["```".data])
        (⟨[], true, [], false, false⟩ : MdState)
      = mdGo 1 ["```".data] (⟨[], true, body, false, false⟩ : MdState) := by
    have h := mdGo_buffer body ["```".data] 1
      (⟨[], true, [], false, false⟩ : MdState) rfl hb
    rw [Nat.add_comm 1 body.length] at h
    exact h
  have h3 : mdGo 1 ["```".data] (⟨[], true, body, false, false⟩ : MdState)
      = (⟨fenceFlushLines body, false, [], false, false⟩ : MdState) := by
    have h := mdGo_fence_close 0 ("```".data) []
      (⟨[], true, body, false, false⟩ : MdState) "" (by decide) rfl
    rw [mdGo_nil] at h
    exact h
  have hrun : mdGo (fo :: body ++ ["```".data]).length (fo :: body ++ ["```".data])
      initSt = (⟨fenceFlushLines body, false, [], false, false⟩ : MdState) := by
    have hlen : (fo :: body ++ ["```".data]).length = (body.length + 1) + 1 := by
      simp
    rw [hlen]
    exact (h1.trans h2).trans h3
  unfold markdown_to_html_lines htmlListOf
  simp only [hrun]
  simp only [fenceFlushLines]
  rw [escapeCh_joinNlCh,
    pyLines_joinNlCh (body.map escapeCh)
      (fun l hl => by
        obtain ⟨x, hx, rfl⟩ := List.mem_map.mp hl
        exact escapeCh_no_nl x (hn x hx)),
    map_mk_dropTrailing (body.map escapeCh)]
  simp [List.map_map, List.append_assoc, Function.comp_def]

/-- C4 witness: a one-line fenced block with a language annotation and an
escapable character renders as the theorem states. -/
theorem C4_fenced_block_escaped_witness :
    is_fenced_start ("```py".data) = some "py"
    ∧ (∀ l ∈ [("a <b".data)], is_fenced_start l = none)
    ∧ (∀ l ∈ [("a <b".data)], '\n' ∉ l)
    ∧ markdown_to_html_lines ("```py".data :: [("a <b".data)] ++ ["```".data])
        = joinNl ("<pre><code>" ::
            dropTrailingEmptyLine ([("a <b".data)].map (fun l => String.mk (escapeCh l)))
            ++ ["</code></pre>"]) :=
  ⟨by decide, by decide, by decide,
    C4_fenced_block_escaped ("```py".data) [("a <b".data)] "py" (by decide)
      (by decide) (by decide)⟩

/-- C10: an opening fence that is never closed discards everything after
it: the loop only toggles `in_code` and buffers every later line into
`code_buf`, which is thrown away at end of input, so no `<pre><code>` is
emitted and (for a document that is just the unclosed block) the returned
HTML is empty. -/
theorem C10_unclosed_fence_discarded :
    (∀ (st : MdState) (fo : List Char) (rest : List (List Char)) (lang : String),
      st.in_code = false → is_fenced_start fo = some lang →
      (∀ l ∈ rest, is_fenced_start l = none) →
      mdGo (rest.length + 1) (fo :: rest) st
        = { st with in_code := true, code_buf := st.code_buf ++ rest })
    ∧ (∀ (fo : List Char) (rest : List (List Char)) (lang : String),
      is_fenced_start fo = some lang →
      (∀ l ∈ rest, is_fenced_start l = none) →
      markdown_to_html_lines (fo :: rest) = "") := by
  have main : ∀ (st : MdState) (fo : List Char) (rest : List (List Char))
      (lang : String),
      st.in_code = false → is_fenced_start fo = some lang →
      (∀ l ∈ rest, is_fenced_start l = none) →
      mdGo (rest.length + 1) (fo :: rest) st
        = { st with in_code := true, code_buf := st.code_buf ++ rest } := by
    intro st fo rest lang hc hf hr
    rw [mdGo_fence_open rest.length fo rest st lang hf hc]
    have hbuf := mdGo_buffer rest [] 0 { st with in_code := true } rfl hr
    rw [List.append_nil, Nat.zero_add, mdGo_nil] at hbuf
    exact hbuf
  refine ⟨main, ?_⟩
  intro fo rest lang hf hr
  unfold markdown_to_html_lines htmlListOf
  rw [show (fo :: rest).length = rest.length + 1 by simp]
  simp only [main initSt fo rest lang rfl hf hr]
  rfl

/-- C10 witness: a fence followed by a heading-looking line renders to the
empty string. -/
theorem C10_unclosed_fence_discarded_witness :
    is_fenced_start ("```".data) = some ""
    ∧ (∀ l ∈ [("# x".data)], is_fenced_start l = none)
    ∧ markdown_to_html_lines ["```".data, "# x".data] = "" :=
  ⟨by decide, by decide,
    C10_unclosed_fence_discarded.2 ("```".data) [("# x".data)] "" (by decide)
      (by decide)⟩


/-! ### Claim about the list state machine (C5) -/

theorem data_prefix_ne (s t : String) (p : List Char) (hp : p <+: s.data)
    (h : ¬ p <+: t.data) : s ≠ t :=
  fun e => h (e ▸ hp)

theorem strHeadPfx (p x : String) : p.data <+: (p ++ x).data := by
  rw [String.data_append]
  exact List.prefix_append _ _

theorem prefix_of_appendLeft (p : List Char) (s x : String) (h : p <+: s.data) :
    p <+: (s ++ x).data := by
  rw [String.data_append]
  exact h.trans (List.prefix_append _ _)

theorem escCharCh_no_lt (c : Char) : '<' ∉ escCharCh c := by
  unfold escCharCh
  split
  · decide
  split
  · decide
  split
  · decide
  split
  · decide
  split
  · decide
  · next h1 h2 h3 h4 h5 =>
    intro hm
    rcases List.mem_singleton.mp hm with rfl
    exact h2 rfl

theorem escapeCh_no_lt (l : List Char) : '<' ∉ escapeCh l := by
  induction l with
  | nil => simp [escapeCh]
  | cons c cs ih =>
    simp only [escapeCh, List.mem_append]
    rintro (hm | hm)
    · exact escCharCh_no_lt c hm
    · exact ih hm

theorem pyLines_chars (cs : List Char) : ∀ l ∈ pyLines cs, ∀ c ∈ l, c ∈ cs := by
  induction cs with
  | nil => simp [pyLines]
  | cons c0 rest ih =>
    intro l hl c hc
    by_cases h0 : c0 = '\n'
    · rw [show pyLines (c0 :: rest) = [] :: pyLines rest by simp [pyLines, h0]]
        at hl
      rcases List.mem_cons.mp hl with rfl | hl'
      · cases hc
      · exact List.mem_cons_of_mem _ (ih l hl' c hc)
    · rw [show pyLines (c0 :: rest)
          = (match pyLines rest with
             | [] => [[c0]]
             | h :: t => (c0 :: h) :: t) by simp [pyLines, h0]] at hl
      cases hpr : pyLines rest with
      | nil =>
        rw [hpr] at hl
        rcases List.mem_singleton.mp hl with rfl
        rcases List.mem_singleton.mp hc with rfl
        exact List.mem_cons_self _ _
      | cons h t =>
        rw [hpr] at hl
        rcases List.mem_cons.mp hl with rfl | hl'
        · rcases List.mem_cons.mp hc with rfl | hc'
          · exact List.mem_cons_self _ _
          · exact List.mem_cons_of_mem _
              (ih h (hpr ▸ List.mem_cons_self h t) c hc')
        · exact List.mem_cons_of_mem _
            (ih l (hpr ▸ List.mem_cons_of_mem _ hl') c hc)

/-- An element of a flushed code block never contains `<`, hence never
equals a list tag. -/
theorem mk_escaped_ne_tag (l : List Char) (h : '<' ∉ l) (t : String)
    (ht : '<' ∈ t.data) : String.mk l ≠ t := by
  intro e
  exact h (by rw [show l = t.data from congrArg String.data e]; exact ht)

theorem count_append_notMem (out L : List String) (a : String) (h : a ∉ L) :
    (out ++ L).count a = out.count a := by
  rw [List.count_append, List.count_eq_zero.mpr h, Nat.add_zero]



theorem notMem_singleton_of_ne (a b : String) (h : a ≠ b) : b ∉ [a] :=
  fun hm => h (List.mem_singleton.mp hm).symm

theorem listInv_append_neutral (st : MdState) (L : List String) (h : listInv st)
    (h1 : "<ol>" ∉ L) (h2 : "</ol>" ∉ L) (h3 : "<ul>" ∉ L) (h4 : "</ul>" ∉ L) :
    listInv { st with htmlLines := st.htmlLines ++ L } := by
  obtain ⟨a, b, c⟩ := h
  refine ⟨?_, ?_, c⟩
  · show (st.htmlLines ++ L).count "<ol>"
      = (st.htmlLines ++ L).count "</ol>" + _
    rw [count_append_notMem _ _ _ h1, count_append_notMem _ _ _ h2]
    exact a
  · show (st.htmlLines ++ L).count "<ul>"
      = (st.htmlLines ++ L).count "</ul>" + _
    rw [count_append_notMem _ _ _ h3, count_append_notMem _ _ _ h4]
    exact b

theorem listInv_closeLists (st : MdState) (h : listInv st) :
    listInv (closeLists st)
    ∧ (closeLists st).list_open = false ∧ (closeLists st).ol_open = false := by
  obtain ⟨a, b, c⟩ := h
  unfold closeLists
  cases hl : st.list_open <;> cases ho : st.ol_open
  · simp only [hl, ho, Bool.false_eq_true, if_false]
    exact ⟨⟨a, b, c⟩, trivial, trivial⟩
  · simp only [hl, ho, Bool.false_eq_true, if_false, if_true]
    have a' : st.htmlLines.count "<ol>" = st.htmlLines.count "</ol>" + 1 := by
      simpa [ho] using a
    refine ⟨⟨?_, ?_, by simp⟩, by simp [hl], by simp⟩
    · show (st.htmlLines ++ ["</ol>"]).count "<ol>"
        = (st.htmlLines ++ ["</ol>"]).count "</ol>" + _
      rw [count_append_notMem _ _ _ (notMem_singleton_of_ne _ _ (by decide)),
        List.count_append,
        show (["</ol>"] : List String).count "</ol>" = 1 from by decide]
      simp [a']
    · show (st.htmlLines ++ ["</ol>"]).count "<ul>"
        = (st.htmlLines ++ ["</ol>"]).count "</ul>" + _
      rw [count_append_notMem _ _ _ (notMem_singleton_of_ne _ _ (by decide)),
        count_append_notMem _ _ _ (notMem_singleton_of_ne _ _ (by decide))]
      simpa [hl] using b
  · simp only [hl, ho, if_true, Bool.false_eq_true, if_false]
    have b' : st.htmlLines.count "<ul>" = st.htmlLines.count "</ul>" + 1 := by
      simpa [hl] using b
    refine ⟨⟨?_, ?_, by simp⟩, by simp, by simp [ho]⟩
    · show (st.htmlLines ++ ["</ul>"]).count "<ol>"
        = (st.htmlLines ++ ["</ul>"]).count "</ol>" + _
      rw [count_append_notMem _ _ _ (notMem_singleton_of_ne _ _ (by decide)),
        count_append_notMem _ _ _ (notMem_singleton_of_ne _ _ (by decide))]
      simpa [ho] using a
    · show (st.htmlLines ++ ["</ul>"]).count "<ul>"
        = (st.htmlLines ++ ["</ul>"]).count "</ul>" + _
      rw [count_append_notMem _ _ _ (notMem_singleton_of_ne _ _ (by decide)),
        List.count_append,
        show (["</ul>"] : List String).count "</ul>" = 1 from by decide]
      simp [b']
  · exact absurd ⟨hl, ho⟩ c



theorem prefixed_ne_tags (p x : String)
    (h1 : ¬ p.data <+: "<ol>".data) (h2 : ¬ p.data <+: "</ol>".data)
    (h3 : ¬ p.data <+: "<ul>".data) (h4 : ¬ p.data <+: "</ul>".data)
    (hs : p.data <+: x.data) :
    x ≠ "<ol>" ∧ x ≠ "</ol>" ∧ x ≠ "<ul>" ∧ x ≠ "</ul>" :=
  ⟨data_prefix_ne _ _ _ hs h1, data_prefix_ne _ _ _ hs h2,
   data_prefix_ne _ _ _ hs h3, data_prefix_ne _ _ _ hs h4⟩

theorem listInv_append_one (st : MdState) (x : String) (h : listInv st)
    (hne : x ≠ "<ol>" ∧ x ≠ "</ol>" ∧ x ≠ "<ul>" ∧ x ≠ "</ul>") :
    listInv { st with htmlLines := st.htmlLines ++ [x] } :=
  listInv_append_neutral st [x] h
    (notMem_singleton_of_ne _ _ hne.1) (notMem_singleton_of_ne _ _ hne.2.1)
    (notMem_singleton_of_ne _ _ hne.2.2.1) (notMem_singleton_of_ne _ _ hne.2.2.2)

theorem listInv_olStep (st : MdState) (h : listInv st) (li : String)
    (hne : li ≠ "<ol>" ∧ li ≠ "</ol>" ∧ li ≠ "<ul>" ∧ li ≠ "</ul>") :
    listInv
      (let st1 :=
        if st.ol_open then st
        else
          let s2 := closeLists st
          { s2 with htmlLines := s2.htmlLines ++ ["<ol>"], ol_open := true }
       { st1 with htmlLines := st1.htmlLines ++ [li] }) := by
  cases ho : st.ol_open
  · -- open a fresh <ol> after closing any open list
    obtain ⟨⟨a, b, c⟩, hl0, ho0⟩ := listInv_closeLists st h
    refine listInv_append_one
      (⟨(closeLists st).htmlLines ++ ["<ol>"], (closeLists st).in_code,
        (closeLists st).code_buf, (closeLists st).list_open, true⟩ : MdState)
      li ⟨?_, ?_, ?_⟩ hne
    · show ((closeLists st).htmlLines ++ ["<ol>"]).count "<ol>"
        = ((closeLists st).htmlLines ++ ["<ol>"]).count "</ol>" + _
      rw [List.count_append,
        show (["<ol>"] : List String).count "<ol>" = 1 from by decide,
        count_append_notMem _ _ _ (notMem_singleton_of_ne _ _ (by decide))]
      have a2 : (closeLists st).htmlLines.count "<ol>"
          = (closeLists st).htmlLines.count "</ol>" := by
        simpa [ho0] using a
      simp [a2]
    · show ((closeLists st).htmlLines ++ ["<ol>"]).count "<ul>"
        = ((closeLists st).htmlLines ++ ["<ol>"]).count "</ul>" + _
      rw [count_append_notMem _ _ _ (notMem_singleton_of_ne _ _ (by decide)),
        count_append_notMem _ _ _ (notMem_singleton_of_ne _ _ (by decide))]
      have b2 : (closeLists st).htmlLines.count "<ul>"
          = (closeLists st).htmlLines.count "</ul>" := by
        simpa [hl0] using b
      simp [b2, hl0]
    · show ¬((closeLists st).list_open = true ∧ true = true)
      simp [hl0]
  · -- ordered list already open: only the <li> is appended
    exact listInv_append_one st li h hne

theorem listInv_ulStep (st : MdState) (h : listInv st) (li : String)
    (hne : li ≠ "<ol>" ∧ li ≠ "</ol>" ∧ li ≠ "<ul>" ∧ li ≠ "</ul>") :
    listInv
      (let st1 :=
        if st.list_open then st
        else
          let s2 := closeLists st
          { s2 with htmlLines := s2.htmlLines ++ ["<ul>"], list_open := true }
       { st1 with htmlLines := st1.htmlLines ++ [li] }) := by
  cases hl : st.list_open
  · obtain ⟨⟨a, b, c⟩, hl0, ho0⟩ := listInv_closeLists st h
    refine listInv_append_one
      (⟨(closeLists st).htmlLines ++ ["<ul>"], (closeLists st).in_code,
        (closeLists st).code_buf, true, (closeLists st).ol_open⟩ : MdState)
      li ⟨?_, ?_, ?_⟩ hne
    · show ((closeLists st).htmlLines ++ ["<ul>"]).count "<ol>"
        = ((closeLists st).htmlLines ++ ["<ul>"]).count "</ol>" + _
      rw [count_append_notMem _ _ _ (notMem_singleton_of_ne _ _ (by decide)),
        count_append_notMem _ _ _ (notMem_singleton_of_ne _ _ (by decide))]
      have a2 : (closeLists st).htmlLines.count "<ol>"
          = (closeLists st).htmlLines.count "</ol>" := by
        simpa [ho0] using a
      simp [a2, ho0]
    · show ((closeLists st).htmlLines ++ ["<ul>"]).count "<ul>"
        = ((closeLists st).htmlLines ++ ["<ul>"]).count "</ul>" + _
      rw [List.count_append,
        show (["<ul>"] : List String).count "<ul>" = 1 from by decide,
        count_append_notMem _ _ _ (notMem_singleton_of_ne _ _ (by decide))]
      have b2 : (closeLists st).htmlLines.count "<ul>"
          = (closeLists st).htmlLines.count "</ul>" := by
        simpa [hl0] using b
      simp [b2]
    · show ¬(true = true ∧ (closeLists st).ol_open = true)
      simp [ho0]
  · exact listInv_append_one st li h hne



theorem tag_notMem_flush (buf : List (List Char)) (t : String) (ht : '<' ∈ t.data)
    (h1 : t ≠ "<pre><code>") (h2 : t ≠ "</code></pre>") :
    t ∉ fenceFlushLines buf := by
  unfold fenceFlushLines
  intro hm
  rcases List.mem_append.mp hm with hm' | hm'
  · rcases List.mem_append.mp hm' with hm'' | hm''
    · exact h1 (List.mem_singleton.mp hm'')
    · obtain ⟨l, hl, hmk⟩ := List.mem_map.mp hm''
      have hlt : '<' ∉ l :=
        fun hcc => escapeCh_no_lt _ (pyLines_chars _ l hl '<' hcc)
      exact mk_escaped_ne_tag l hlt t ht hmk
  · exact h2 (List.mem_singleton.mp hm')

theorem tag_notMem_indentBlock (l : List Char) (t : String) (ht : '<' ∈ t.data)
    (h1 : t ≠ "<pre><code>") (h2 : t ≠ "</code></pre>") :
    t ∉ ["<pre><code>", String.mk (escapeCh l), "</code></pre>"] := by
  intro hm
  rcases List.mem_cons.mp hm with rfl | hm'
  · exact h1 rfl
  rcases List.mem_cons.mp hm' with hq | hm''
  · exact mk_escaped_ne_tag (escapeCh l) (escapeCh_no_lt l) t ht hq.symm
  · exact h2 (List.mem_singleton.mp hm'')

theorem hdr_ne_tags (x1 x2 x3 x4 x5 x6 : String) :
    ("<h" ++ x1 ++ x2 ++ x3 ++ x4 ++ x5 ++ x6) ≠ "<ol>"
    ∧ ("<h" ++ x1 ++ x2 ++ x3 ++ x4 ++ x5 ++ x6) ≠ "</ol>"
    ∧ ("<h" ++ x1 ++ x2 ++ x3 ++ x4 ++ x5 ++ x6) ≠ "<ul>"
    ∧ ("<h" ++ x1 ++ x2 ++ x3 ++ x4 ++ x5 ++ x6) ≠ "</ul>" :=
  prefixed_ne_tags "<h" _ (by decide) (by decide) (by decide) (by decide)
    (prefix_of_appendLeft _ _ _ (prefix_of_appendLeft _ _ _
      (prefix_of_appendLeft _ _ _ (prefix_of_appendLeft _ _ _
        (prefix_of_appendLeft _ _ _ (strHeadPfx _ _))))))

theorem li_ne_tags (x1 x2 : String) :
    ("<li>" ++ x1 ++ x2) ≠ "<ol>" ∧ ("<li>" ++ x1 ++ x2) ≠ "</ol>"
    ∧ ("<li>" ++ x1 ++ x2) ≠ "<ul>" ∧ ("<li>" ++ x1 ++ x2) ≠ "</ul>" :=
  prefixed_ne_tags "<li>" _ (by decide) (by decide) (by decide) (by decide)
    (prefix_of_appendLeft _ _ _ (strHeadPfx _ _))

theorem p_ne_tags (x1 x2 : String) :
    ("<p>" ++ x1 ++ x2) ≠ "<ol>" ∧ ("<p>" ++ x1 ++ x2) ≠ "</ol>"
    ∧ ("<p>" ++ x1 ++ x2) ≠ "<ul>" ∧ ("<p>" ++ x1 ++ x2) ≠ "</ul>" :=
  prefixed_ne_tags "<p>" _ (by decide) (by decide) (by decide) (by decide)
    (prefix_of_appendLeft _ _ _ (strHeadPfx _ _))

/-- The loop preserves the list-tracking invariant. -/
theorem mdGo_listInv (fuel : Nat) : ∀ (lines : List (List Char)) (st : MdState),
    listInv st → listInv (mdGo fuel lines st) := by
  induction fuel with
  | zero =>
    intro lines st h
    cases lines <;> exact h
  | succ n ih =>
    intro lines st h
    cases lines with
    | nil => rw [mdGo_nil]; exact h
    | cons raw rest =>
      cases hf : is_fenced_start raw with
      | some lang =>
        cases hc : st.in_code with
        | false =>
          rw [mdGo_fence_open n raw rest st lang hf hc]
          exact ih rest _ h
        | true =>
          rw [mdGo_fence_close n raw rest st lang hf hc]
          exact ih rest _ (listInv_append_neutral st (fenceFlushLines st.code_buf) h
            (tag_notMem_flush _ _ (by decide) (by decide) (by decide))
            (tag_notMem_flush _ _ (by decide) (by decide) (by decide))
            (tag_notMem_flush _ _ (by decide) (by decide) (by decide))
            (tag_notMem_flush _ _ (by decide) (by decide) (by decide)))
      | none =>
        cases hc : st.in_code with
        | true =>
          rw [mdGo_code n raw rest st hf hc]
          exact ih rest _ h
        | false =>
          cases hh : "#".data.isPrefixOf raw with
          | true =>
            rw [mdGo_heading n raw rest st hf hc hh]
            exact ih rest _ (listInv_append_one (closeLists st) _
              (listInv_closeLists st h).1 (hdr_ne_tags _ _ _ _ _ _))
          | false =>
            by_cases hn : (starts_with_numbered_item raw).getD [] = []
            · cases hu : "- ".data.isPrefixOf (pyStripCh raw) with
              | true =>
                rw [mdGo_ul n raw rest st hf hc hh hn hu]
                exact ih rest _ (listInv_ulStep st h _ (li_ne_tags _ _))
              | false =>
                by_cases hb : pyStripCh raw = []
                · rw [mdGo_blank n raw rest st hf hc hh hn hb]
                  exact ih rest _ (listInv_append_one (closeLists st) ""
                    (listInv_closeLists st h).1 (by decide))
                · cases hi : isIndented raw with
                  | true =>
                    rw [mdGo_indent n raw rest st hf hc hh hn hu hb hi]
                    exact ih _ _ (listInv_append_neutral (closeLists st) _
                      (listInv_closeLists st h).1
                      (tag_notMem_indentBlock _ _ (by decide) (by decide) (by decide))
                      (tag_notMem_indentBlock _ _ (by decide) (by decide) (by decide))
                      (tag_notMem_indentBlock _ _ (by decide) (by decide) (by decide))
                      (tag_notMem_indentBlock _ _ (by decide) (by decide) (by decide)))
                  | false =>
                    rw [mdGo_para n raw rest st hf hc hh hn hu hb hi]
                    exact ih rest _ (listInv_append_one (closeLists st) _
                      (listInv_closeLists st h).1 (p_ne_tags _ _))
            · rw [mdGo_numbered n raw rest st hf hc hh hn]
              exact ih rest _ (listInv_olStep st h _ (li_ne_tags _ _))



theorem fence_none_of_head (c : Char) (l : List Char) (hc : c ≠ '`') :
    is_fenced_start (c :: l) = none := by
  unfold is_fenced_start
  rw [if_neg]
  intro hp
  simp only [List.isPrefixOf, Bool.and_eq_true, beq_iff_eq] at hp
  exact hc hp.1.symm

theorem hash_false_of_head (c : Char) (l : List Char) (hc : c ≠ '#') :
    "#".data.isPrefixOf (c :: l) = false := by
  have hb : ('#' == c) = false := beq_eq_false_iff_ne.mpr (fun e => hc e.symm)
  show (('#' == c) && List.isPrefixOf [] l) = false
  rw [hb, Bool.false_and]

/-- A line recognised as a numbered item is neither a fence nor a
heading: its first character is whitespace or a digit. -/
theorem numbered_guards (raw : List Char) (t : List Char)
    (h : starts_with_numbered_item raw = some t) :
    is_fenced_start raw = none ∧ "#".data.isPrefixOf raw = false := by
  cases raw with
  | nil => simp [starts_with_numbered_item] at h
  | cons c l =>
    by_cases hw : c.isWhitespace
    · exact ⟨fence_none_of_head c l
        (fun e => by rw [e] at hw; exact absurd hw (by decide)),
      hash_false_of_head c l
        (fun e => by rw [e] at hw; exact absurd hw (by decide))⟩
    · have hd : c.isDigit := by
        by_contra hnd
        simp [starts_with_numbered_item, hw, hnd] at h
      exact ⟨fence_none_of_head c l
        (fun e => by rw [e] at hd; exact absurd hd (by decide)),
      hash_false_of_head c l
        (fun e => by rw [e] at hd; exact absurd hd (by decide))⟩



/-- Consecutive numbered-item lines while an ordered list is open emit one
`<li>` per line and change nothing else. -/
theorem mdGo_ol_run : ∀ (lines txts : List (List Char)) (fuel : Nat) (st : MdState),
    lines.length ≤ fuel → st.in_code = false → st.ol_open = true →
    lines.map starts_with_numbered_item = txts.map some →
    (∀ t ∈ txts, t ≠ []) →
    mdGo fuel lines st
      = { st with htmlLines :=
            st.htmlLines
              ++ txts.map (fun t => "<li>" ++ render_inline t ++ "</li>") } := by
  intro lines
  induction lines with
  | nil =>
    intro txts fuel st _ _ _ hmap _
    have htx : txts = [] := by
      cases txts with
      | nil => rfl
      | cons a b => simp at hmap
    subst htx
    rw [mdGo_nil]
    simp
  | cons raw rs ih =>
    intro txts fuel st hlen hc ho hmap hne
    cases txts with
    | nil => simp at hmap
    | cons t ts =>
      simp only [List.map_cons, List.cons.injEq] at hmap
      obtain ⟨hr, hrs⟩ := hmap
      cases fuel with
      | zero => simp at hlen
      | succ n =>
        obtain ⟨hfn, hhn⟩ := numbered_guards raw t hr
        have hgd : (starts_with_numbered_item raw).getD [] = t := by
          rw [hr]; rfl
        have hnn : (starts_with_numbered_item raw).getD [] ≠ [] := by
          rw [hgd]; exact hne t (List.mem_cons_self _ _)
        rw [mdGo_numbered n raw rs st hfn hc hhn hnn]
        rw [hgd, if_pos ho]
        have hih := ih ts n
          (⟨st.htmlLines ++ ["<li>" ++ render_inline t ++ "</li>"], st.in_code,
            st.code_buf, st.list_open, st.ol_open⟩ : MdState)
          (Nat.le_of_succ_le_succ hlen) hc ho hrs
          (fun x hx => hne x (List.mem_cons_of_mem _ hx))
        rw [hih]
        simp [List.append_assoc]


theorem count_balance_out (st : MdState) (h : listInv st) :
    ((st.htmlLines ++ (if st.list_open then ["</ul>"] else [])
        ++ (if st.ol_open then ["</ol>"] else [])).count "<ol>"
      = (st.htmlLines ++ (if st.list_open then ["</ul>"] else [])
        ++ (if st.ol_open then ["</ol>"] else [])).count "</ol>")
    ∧ ((st.htmlLines ++ (if st.list_open then ["</ul>"] else [])
        ++ (if st.ol_open then ["</ol>"] else [])).count "<ul>"
      = (st.htmlLines ++ (if st.list_open then ["</ul>"] else [])
        ++ (if st.ol_open then ["</ol>"] else [])).count "</ul>") := by
  obtain ⟨a, b, c⟩ := h
  cases hl : st.list_open <;> cases ho : st.ol_open
  · simp only [hl, ho, Bool.false_eq_true, if_false, List.append_nil]
    exact ⟨by simpa [ho] using a, by simpa [hl] using b⟩
  · simp only [hl, ho, Bool.false_eq_true, if_false, if_true, List.append_nil]
    constructor
    · rw [List.count_append, List.count_append,
        show (["</ol>"] : List String).count "<ol>" = 0 from by decide,
        show (["</ol>"] : List String).count "</ol>" = 1 from by decide]
      have a2 := a
      rw [ho] at a2
      simp at a2
      omega
    · rw [count_append_notMem _ _ _ (notMem_singleton_of_ne _ _ (by decide)),
        count_append_notMem _ _ _ (notMem_singleton_of_ne _ _ (by decide))]
      simpa [hl] using b
  · simp only [hl, ho, Bool.false_eq_true, if_false, if_true, List.append_nil]
    constructor
    · rw [count_append_notMem _ _ _ (notMem_singleton_of_ne _ _ (by decide)),
        count_append_notMem _ _ _ (notMem_singleton_of_ne _ _ (by decide))]
      simpa [ho] using a
    · rw [List.count_append, List.count_append,
        show (["</ul>"] : List String).count "<ul>" = 0 from by decide,
        show (["</ul>"] : List String).count "</ul>" = 1 from by decide]
      have b2 := b
      rw [hl] at b2
      simp at b2
      omega
  · exact absurd ⟨hl, ho⟩ c

/-- A document consisting solely of (non-empty) numbered items renders as
one ordered list. -/
theorem ol_only_doc (lines txts : List (List Char)) (hne0 : lines ≠ [])
    (hmap : lines.map starts_with_numbered_item = txts.map some)
    (hnet : ∀ t ∈ txts, t ≠ []) :
    markdown_to_html_lines lines
      = joinNl ("<ol>" ::
          txts.map (fun t => "<li>" ++ render_inline t ++ "</li>")
          ++ ["</ol>"]) := by
  cases lines with
  | nil => exact absurd rfl hne0
  | cons raw rs =>
    cases txts with
    | nil => simp at hmap
    | cons t ts =>
      simp only [List.map_cons, List.cons.injEq] at hmap
      obtain ⟨hr, hrs⟩ := hmap
      obtain ⟨hfn, hhn⟩ := numbered_guards raw t hr
      have hgd : (starts_with_numbered_item raw).getD [] = t := by
        rw [hr]; rfl
      have hnn : (starts_with_numbered_item raw).getD [] ≠ [] := by
        rw [hgd]; exact hnet t (List.mem_cons_self _ _)
      have hstep := mdGo_numbered rs.length raw rs initSt hfn rfl hhn hnn
      rw [hgd] at hstep
      have hrun := mdGo_ol_run rs ts rs.length
        (⟨["<ol>", "<li>" ++ render_inline t ++ "</li>"], false, [], false,
          true⟩ : MdState)
        (Nat.le_refl _) rfl rfl hrs
        (fun x hx => hnet x (List.mem_cons_of_mem _ hx))
      have hfinal : mdGo (rs.length + 1) (raw :: rs) initSt
          = (⟨["<ol>", "<li>" ++ render_inline t ++ "</li>"]
                ++ ts.map (fun x => "<li>" ++ render_inline x ++ "</li>"),
              false, [], false, true⟩ : MdState) :=
        hstep.trans hrun
      unfold markdown_to_html_lines htmlListOf
      simp only [List.length_cons]
      simp only [hfinal]
      simp [List.append_assoc]



/-- An unordered item arriving while an ordered list is open (and no
unordered list is) closes the `</ol>` and opens a fresh `<ul>` before
emitting the item. -/
theorem switch_ol_to_ul (fuel : Nat) (raw : List Char) (rest : List (List Char))
    (st : MdState) (hc : st.in_code = false) (hl : st.list_open = false)
    (ho : st.ol_open = true) (hf : is_fenced_start raw = none)
    (hh : "#".data.isPrefixOf raw = false)
    (hn : (starts_with_numbered_item raw).getD [] = [])
    (hu : "- ".data.isPrefixOf (pyStripCh raw) = true) :
    mdGo (fuel + 1) (raw :: rest) st
      = mdGo fuel rest
          { st with
              htmlLines :=
                st.htmlLines
                  ++ ["</ol>", "<ul>",
                      "<li>"
                        ++ render_inline (pyStripCh ((pyStripCh raw).drop 2))
                        ++ "</li>"],
              list_open := true,
              ol_open := false } := by
  rw [mdGo_ul fuel raw rest st hf hc hh hn hu]
  congr 1
  simp only [hl, Bool.false_eq_true, if_false]
  unfold closeLists
  simp only [hl, Bool.false_eq_true, if_false, ho, if_true]
  simp [List.append_assoc]

/-- Symmetrically, a numbered item arriving while an unordered list is
open closes the `</ul>` and opens a fresh `<ol>` before emitting it. -/
theorem switch_ul_to_ol (fuel : Nat) (raw : List Char) (rest : List (List Char))
    (st : MdState) (hc : st.in_code = false) (hl : st.list_open = true)
    (ho : st.ol_open = false) (hf : is_fenced_start raw = none)
    (hh : "#".data.isPrefixOf raw = false)
    (hn : (starts_with_numbered_item raw).getD [] ≠ []) :
    mdGo (fuel + 1) (raw :: rest) st
      = mdGo fuel rest
          { st with
              htmlLines :=
                st.htmlLines
                  ++ ["</ul>", "<ol>",
                      "<li>"
                        ++ render_inline ((starts_with_numbered_item raw).getD [])
                        ++ "</li>"],
              list_open := false,
              ol_open := true } := by
  rw [mdGo_numbered fuel raw rest st hf hc hh hn]
  congr 1
  simp only [ho, Bool.false_eq_true, if_false]
  unfold closeLists
  simp only [hl, if_true, ho, Bool.false_eq_true, if_false]
  simp [List.append_assoc]

/-- C5: consecutive ordered-list lines produce a single `<ol>` with one
`<li>` per line in input order; an unordered item arriving while an
`<ol>` is open closes it and opens a fresh `<ul>` (shown on the spec's
three-line example); every `<ol>`/`<ul>` opened in the output is matched
by a close tag (any list still open at end of input is closed); at most
one of the two list kinds is open at any point of the run; and the kind
switch holds in both directions, shown concretely for `<ul>` to `<ol>`
and in general as one-step loop equations for either direction. -/
theorem C5_list_state_machine :
    (∀ (lines txts : List (List Char)),
      lines ≠ [] →
      lines.map starts_with_numbered_item = txts.map some →
      (∀ t ∈ txts, t ≠ []) →
      markdown_to_html_lines lines
        = joinNl ("<ol>" ::
            txts.map (fun t => "<li>" ++ render_inline t ++ "</li>")
            ++ ["</ol>"]))
    ∧ markdown_to_html_lines ["1. first".data, "2. second".data, "- x".data]
        = "<ol>\n<li>first</li>\n<li>second</li>\n</ol>\n<ul>\n<li>x</li>\n</ul>"
    ∧ (∀ lines : List (List Char),
        (htmlListOf lines).count "<ol>" = (htmlListOf lines).count "</ol>"
        ∧ (htmlListOf lines).count "<ul>" = (htmlListOf lines).count "</ul>")
    ∧ (∀ (fuel : Nat) (lines : List (List Char)) (st : MdState),
        listInv st →
        ¬((mdGo fuel lines st).list_open = true
          ∧ (mdGo fuel lines st).ol_open = true))
    ∧ markdown_to_html_lines ["- x".data, "1. a".data]
        = "<ul>\n<li>x</li>\n</ul>\n<ol>\n<li>a</li>\n</ol>"
    ∧ (∀ (fuel : Nat) (raw : List Char) (rest : List (List Char)) (st : MdState),
        st.in_code = false → st.list_open = false → st.ol_open = true →
        is_fenced_start raw = none → "#".data.isPrefixOf raw = false →
        (starts_with_numbered_item raw).getD [] = [] →
        "- ".data.isPrefixOf (pyStripCh raw) = true →
        mdGo (fuel + 1) (raw :: rest) st
          = mdGo fuel rest
              { st with
                  htmlLines :=
                    st.htmlLines
                      ++ ["</ol>", "<ul>",
                          "<li>"
                            ++ render_inline (pyStripCh ((pyStripCh raw).drop 2))
                            ++ "</li>"],
                  list_open := true,
                  ol_open := false })
    ∧ (∀ (fuel : Nat) (raw : List Char) (rest : List (List Char)) (st : MdState),
        st.in_code = false → st.list_open = true → st.ol_open = false →
        is_fenced_start raw = none → "#".data.isPrefixOf raw = false →
        (starts_with_numbered_item raw).getD [] ≠ [] →
        mdGo (fuel + 1) (raw :: rest) st
          = mdGo fuel rest
              { st with
                  htmlLines :=
                    st.htmlLines
                      ++ ["</ul>", "<ol>",
                          "<li>"
                            ++ render_inline
                                ((starts_with_numbered_item raw).getD [])
                            ++ "</li>"],
                  list_open := false,
                  ol_open := true }) :=
  ⟨ol_only_doc, by decide,
   fun lines => count_balance_out (mdGo lines.length lines initSt)
     (mdGo_listInv lines.length lines initSt ⟨by decide, by decide, by decide⟩),
   fun fuel lines st h => (mdGo_listInv fuel lines st h).2.2,
   by decide,
   switch_ol_to_ul, switch_ul_to_ol⟩

/-- C5 witness: the single-item ordered document `1. a`, plus one
concrete application of each general kind-switch equation. -/
theorem C5_list_state_machine_witness :
    (["1. a".data] : List (List Char)) ≠ []
    ∧ ["1. a".data].map starts_with_numbered_item = ["a".data].map some
    ∧ (∀ t ∈ [("a".data)], t ≠ [])
    ∧ markdown_to_html_lines ["1. a".data]
        = joinNl ("<ol>" ::
            ["a".data].map (fun t => "<li>" ++ render_inline t ++ "</li>")
            ++ ["</ol>"])
    ∧ is_fenced_start ("- x".data) = none
    ∧ "- ".data.isPrefixOf (pyStripCh ("- x".data)) = true
    ∧ mdGo (0 + 1) ["- x".data] (⟨["<ol>"], false, [], false, true⟩ : MdState)
        = mdGo 0 []
            (⟨["<ol>", "</ol>", "<ul>",
                "<li>"
                  ++ render_inline (pyStripCh ((pyStripCh ("- x".data)).drop 2))
                  ++ "</li>"],
              false, [], true, false⟩ : MdState)
    ∧ (starts_with_numbered_item ("1. a".data)).getD [] ≠ []
    ∧ mdGo (0 + 1) ["1. a".data] (⟨["<ul>"], false, [], true, false⟩ : MdState)
        = mdGo 0 []
            (⟨["<ul>", "</ul>", "<ol>",
                "<li>"
                  ++ render_inline ((starts_with_numbered_item ("1. a".data)).getD [])
                  ++ "</li>"],
              false, [], false, true⟩ : MdState) :=
  ⟨by decide, by decide, by decide,
   C5_list_state_machine.1 ["1. a".data] ["a".data] (by decide) (by decide)
     (by decide),
   by decide, by decide,
   C5_list_state_machine.2.2.2.2.2.1 0 ("- x".data) []
     (⟨["<ol>"], false, [], false, true⟩ : MdState) rfl rfl rfl (by decide)
     (by decide) (by decide) (by decide),
   by decide,
   C5_list_state_machine.2.2.2.2.2.2 0 ("1. a".data) []
     (⟨["<ul>"], false, [], true, false⟩ : MdState) rfl rfl rfl (by decide)
     (by decide) (by decide)⟩



/-! ### Claims about the site builder (C6, C7, C8, C9) -/

theorem sortEntries_perm (l : List (String × String)) : (sortEntries l).Perm l :=
  List.perm_insertionSort entryLe l

theorem sortEntries_sorted (l : List (String × String)) :
    List.Sorted entryLe (sortEntries l) :=
  List.sorted_insertionSort entryLe l

theorem sortEntries_eq_of_perm (l1 l2 : List (String × String)) (h : l1.Perm l2) :
    sortEntries l1 = sortEntries l2 :=
  List.eq_of_perm_of_sorted
    ((sortEntries_perm l1).trans (h.trans (sortEntries_perm l2).symm))
    (sortEntries_sorted l1) (sortEntries_sorted l2)

theorem rawEntries_perm (fs1 fs2 : List MdFile) (h : fs1.Perm fs2) :
    (rawEntries fs1).Perm (rawEntries fs2) :=
  (h.filter _).map _

/-- C6: the index listing is a function of the set of discovered files
(it is identical for every filesystem enumeration order, and so is the
whole `build_index` output); it is the collected `(href, title)` entries
sorted ascending (a sorted permutation of the raw entries, with the map
to href keys ascending); and each listing line uses the entry's sort key
verbatim as its `<a href>` target. -/
theorem C6_index_deterministic_sorted :
    (∀ (fs1 fs2 : List MdFile) (indexSrc : Option (List (List Char)))
        (cfg : Config) (built : String) (dry : Bool) (dstRoot : String),
      fs1.Perm fs2 →
      build_index fs1 indexSrc cfg built dry dstRoot
        = build_index fs2 indexSrc cfg built dry dstRoot)
    ∧ (∀ fs : List MdFile,
        (sortEntries (rawEntries fs)).Perm (rawEntries fs)
        ∧ ((sortEntries (rawEntries fs)).map Prod.fst).Sorted (· ≤ ·))
    ∧ (∀ (fs : List MdFile) (e : String × String),
        e ∈ sortEntries (rawEntries fs) →
        lineOfEntry e
          = "<li><a href=\"" ++ e.1 ++ "\">" ++ escapeStr e.2 ++ "</a></li>") := by
  refine ⟨?_, ?_, ?_⟩
  · intro fs1 fs2 indexSrc cfg built dry dstRoot h
    unfold build_index indexListing
    rw [sortEntries_eq_of_perm _ _ (rawEntries_perm _ _ h)]
  · intro fs
    refine ⟨sortEntries_perm _, ?_⟩
    exact List.Pairwise.map Prod.fst
      (fun a b hab => by
        rcases hab with h | ⟨h, _⟩
        · exact le_of_lt h
        · exact le_of_eq h)
      (sortEntries_sorted (rawEntries fs))
  · intro fs e _
    rfl

/-- C6 witness: two one-file trees that are permutations of each other
produce the same index page. -/
theorem C6_index_deterministic_sorted_witness :
    ((([⟨"b", "b.md", [['#', ' ', 'B']]⟩, ⟨"a", "a.md", []⟩] : List MdFile)).Perm
        ([⟨"a", "a.md", []⟩, ⟨"b", "b.md", [['#', ' ', 'B']]⟩] : List MdFile))
    ∧ build_index
        ([⟨"b", "b.md", [['#', ' ', 'B']]⟩, ⟨"a", "a.md", []⟩] : List MdFile)
        none ⟨"T", "/", "/s.css", "%Y-%m-%d"⟩ "2020-01-01 00:00:00" false "out"
      = build_index
        ([⟨"a", "a.md", []⟩, ⟨"b", "b.md", [['#', ' ', 'B']]⟩] : List MdFile)
        none ⟨"T", "/", "/s.css", "%Y-%m-%d"⟩ "2020-01-01 00:00:00" false "out" :=
  ⟨by decide,
   C6_index_deterministic_sorted.1
     ([⟨"b", "b.md", [['#', ' ', 'B']]⟩, ⟨"a", "a.md", []⟩])
     ([⟨"a", "a.md", []⟩, ⟨"b", "b.md", [['#', ' ', 'B']]⟩])
     none ⟨"T", "/", "/s.css", "%Y-%m-%d"⟩ "2020-01-01 00:00:00" false "out"
     (by decide)⟩



/-- C7: a discovered file whose name starts with the reserved `__` prefix
produces no page (the converter returns `None` with no log and no
mutation), and every index-listing entry originates from a file whose
name does not start with `__`. -/
theorem C7_reserved_prefix_excluded :
    (∀ (f : MdFile) (outRoot : String) (cfg : Config) (dry : Bool) (built : String),
      "__".data.isPrefixOf f.name.data → ".md".data.isSuffixOf f.name.data →
      md_to_html_file f outRoot cfg dry built = (none, ([], [])))
    ∧ (∀ (fs : List MdFile) (e : String × String), e ∈ rawEntries fs →
        ∃ g, g ∈ fs ∧ ¬("__".data.isPrefixOf g.name.data = true) ∧ e = entryOf g) := by
  constructor
  · intro f outRoot cfg dry built h1 h2
    unfold md_to_html_file
    rw [if_pos ⟨h1, h2⟩]
  · intro fs e he
    unfold rawEntries at he
    obtain ⟨g, hg, rfl⟩ := List.mem_map.mp he
    obtain ⟨hmem, hpred⟩ := List.mem_filter.mp hg
    refine ⟨g, hmem, ?_, rfl⟩
    intro hcontra
    rw [hcontra] at hpred
    simp at hpred

/-- C7 witness: `__draft__.md` is skipped entirely. -/
theorem C7_reserved_prefix_excluded_witness :
    "__".data.isPrefixOf ("__draft__.md").data = true
    ∧ ".md".data.isSuffixOf ("__draft__.md").data = true
    ∧ md_to_html_file (⟨"sub/__draft__", "__draft__.md", []⟩ : MdFile)
        "out" ⟨"T", "/", "/s.css", "%Y-%m-%d"⟩ false "2020-01-01 00:00:00"
        = (none, ([], [])) :=
  ⟨by decide, by decide,
   C7_reserved_prefix_excluded.1 (⟨"sub/__draft__", "__draft__.md", []⟩ : MdFile)
     "out" ⟨"T", "/", "/s.css", "%Y-%m-%d"⟩ false "2020-01-01 00:00:00"
     (by decide) (by decide)⟩

theorem cleanLoop_eq (dry : Bool) (l : List FsFile) :
    cleanLoop dry l
      = Except.ok (l.map (fun f => "remove " ++ f.path),
          if dry then []
          else (l.filter (fun f => f.presentAtUnlink)).map
            (fun f => Action.unlink f.path)) := by
  induction l with
  | nil => cases dry <;> rfl
  | cons f rest ih =>
    unfold cleanLoop unlinkRaw
    cases dry
    · cases hp : f.presentAtUnlink
      · simp [ih, hp]
      · simp [ih, hp]
    · simp [ih]



theorem md_to_html_file_logs_dry (f : MdFile) (outRoot : String) (cfg : Config)
    (built : String) :
    (md_to_html_file f outRoot cfg true built).2.1
      = (md_to_html_file f outRoot cfg false built).2.1 := by
  unfold md_to_html_file write_text
  split <;> rfl

theorem md_to_html_file_acts_dry (f : MdFile) (outRoot : String) (cfg : Config)
    (built : String) :
    (md_to_html_file f outRoot cfg true built).2.2 = [] := by
  unfold md_to_html_file write_text
  split <;> rfl

theorem flatCat_all_nil (l : List (List α)) (h : ∀ x ∈ l, x = []) :
    flatCat l = [] := by
  induction l with
  | nil => rfl
  | cons x xs ih =>
    rw [show flatCat (x :: xs) = x ++ flatCat xs from rfl,
      h x (List.mem_cons_self _ _), ih (fun y hy => h y (List.mem_cons_of_mem _ hy))]
    rfl

/-- C8: with the dry-run flag set, `build` and `clean` produce exactly the
decision log of the corresponding non-dry run and an empty mutation list. -/
theorem C8_dry_run_no_mutations :
    (∀ (files : List MdFile) (dstExists : Bool) (dstFiles : List FsFile)
        (indexSrc : Option (List (List Char))) (cfg : Config) (built : String)
        (cleanFirst : Bool) (dstRoot : String),
      build_domain files dstExists dstFiles indexSrc cfg built cleanFirst true dstRoot
        = Except.map (fun r => (r.1, ([] : List Action)))
            (build_domain files dstExists dstFiles indexSrc cfg built cleanFirst
              false dstRoot))
    ∧ (∀ (rootExists : Bool) (files : List FsFile),
      clean_domain rootExists files true
        = Except.map (fun r => (r.1, ([] : List Action)))
            (clean_domain rootExists files false)) := by
  have hclean : ∀ (rootExists : Bool) (files : List FsFile),
      clean_domain rootExists files true
        = Except.map (fun r => (r.1, ([] : List Action)))
            (clean_domain rootExists files false) := by
    intro rootExists files
    unfold clean_domain
    cases rootExists
    · rfl
    · rw [cleanLoop_eq, cleanLoop_eq]
      simp [Except.map]
  refine ⟨?_, hclean⟩
  intro files dstExists dstFiles indexSrc cfg built cleanFirst dstRoot
  unfold build_domain
  cases cleanFirst
  · simp only [Bool.false_eq_true, if_false]
    unfold build_index
    simp [write_text, Except.map, List.map_map, Function.comp_def,
      md_to_html_file_logs_dry, md_to_html_file_acts_dry,
      flatCat_all_nil]
  · simp only [if_true]
    rw [show clean_domain dstExists dstFiles true
        = Except.map (fun r => (r.1, ([] : List Action)))
            (clean_domain dstExists dstFiles false) from hclean _ _]
    cases hres : clean_domain dstExists dstFiles false with
    | error e => simp [Except.map]
    | ok r =>
      simp only [Except.map]
      unfold build_index
      simp [write_text, Except.map, List.map_map, Function.comp_def,
        md_to_html_file_logs_dry, md_to_html_file_acts_dry,
        flatCat_all_nil]



/-- C9: cleaning a non-existent destination root performs nothing and
succeeds; otherwise the clean deletes exactly the still-present files
matching `*.html` under the root (logging every enumerated one), never
raises (a file vanished between enumeration and `unlink` raises
`FileNotFoundError`, which is caught), and every deletion targets a path
with the `.html` extension. -/
theorem C9_clean_exact :
    (∀ (files : List FsFile) (dry : Bool),
      clean_domain false files dry = Except.ok (["nothing to clean"], []))
    ∧ (∀ files : List FsFile,
      clean_domain true files false
        = Except.ok ((files.filter isHtmlFile).map (fun f => "remove " ++ f.path),
            ((files.filter isHtmlFile).filter (fun f => f.presentAtUnlink)).map
              (fun f => Action.unlink f.path)))
    ∧ (∀ (files : List FsFile) (dry : Bool) (logs : List String)
        (acts : List Action),
        clean_domain true files dry = Except.ok (logs, acts) →
        ∀ a ∈ acts, ∃ p, a = Action.unlink p
          ∧ ".html".data.isSuffixOf p.data = true) := by
  refine ⟨?_, ?_, ?_⟩
  · intro files dry
    rfl
  · intro files
    unfold clean_domain
    rw [cleanLoop_eq]
    rfl
  · intro files dry logs acts h a ha
    unfold clean_domain at h
    rw [cleanLoop_eq] at h
    simp only [if_true, Except.ok.injEq, Prod.mk.injEq] at h
    obtain ⟨hlogs, hacts⟩ := h
    cases dry with
    | true =>
      rw [← hacts] at ha
      simp at ha
    | false =>
      rw [← hacts] at ha
      simp only [Bool.false_eq_true, if_false] at ha
      obtain ⟨f, hf, rfl⟩ := List.mem_map.mp ha
      obtain ⟨hf1, _⟩ := List.mem_filter.mp hf
      obtain ⟨_, hhtml⟩ := List.mem_filter.mp hf1
      exact ⟨f.path, rfl, hhtml⟩

/-- C9 witness: a tree with one HTML file and one text file. -/
theorem C9_clean_exact_witness :
    clean_domain true
        ([⟨"a/x.html", true⟩, ⟨"a/n.txt", true⟩] : List FsFile) false
      = Except.ok (["remove a/x.html"], [Action.unlink "a/x.html"])
    ∧ (∀ a ∈ ([Action.unlink "a/x.html"] : List Action),
        ∃ p, a = Action.unlink p ∧ ".html".data.isSuffixOf p.data = true) :=
  ⟨by rfl,
   C9_clean_exact.2.2 ([⟨"a/x.html", true⟩, ⟨"a/n.txt", true⟩] : List FsFile)
     false ["remove a/x.html"] [Action.unlink "a/x.html"] (by rfl)⟩


end Site
